import Mathlib

/-!
Verification development for the streaming line-buffering and CSV pipeline
(`lib/csv/line-buffer.js`, `lib/csv/csv.js`).

The shallow embedding below translates the source code:
* text chunks are `List Char`;
* `LineBuffer` (the spec's LineScanner) becomes a state record plus pure
  state-transition functions mirroring `write`, `_flush`, `cork`, `uncork`,
  `end`, `pause`, `resume`; emitted `'line'`, `'done'` and `'drain'` events are
  recorded in the state (`emitted`, `done`, `drains`);
* the default line delimiter regex `/\r?\n/` is embedded as the scanner
  `splitLines` (an optional carriage return followed by a line feed, or a bare
  line feed); all claims under verification use the default delimiter;
* the `encoding`, `logging`, `progressCallback` and `maxLineCount` options are
  not modelled: chunks are already text, logging and the progress callback do
  not change the buffer state, and `maxLineCount` is parsed by the constructor
  but never read anywhere in the implementation.
-/

def nl : Char := '\n'

def cr : Char := '\r'

/-- Prepend a character to the first complete line of a split result, or to the
trailing fragment when there is no complete line yet. -/
def pushChar (c : Char) : List (List Char) × List Char → List (List Char) × List Char
  | ([], f) => ([], c :: f)
  | (l :: ls, f) => ((c :: l) :: ls, f)

/-- `this.buffer.split(/\r?\n/)` followed by `lines.pop()`: returns the list of
complete lines and the trailing fragment.  A bare `'\n'`, or `'\r'` immediately
followed by `'\n'`, terminates a line; a `'\r'` not followed by `'\n'` is
ordinary text. -/
def splitLines : List Char → List (List Char) × List Char
  | [] => ([], [])
  | c :: rest =>
    if c = nl then
      ([] :: (splitLines rest).1, (splitLines rest).2)
    else if c = cr then
      match rest with
      | [] => ([], [cr])
      | c2 :: rest2 =>
        if c2 = nl then ([] :: (splitLines rest2).1, (splitLines rest2).2)
        else pushChar cr (splitLines (c2 :: rest2))
    else pushChar c (splitLines rest)

/-- Number of occurrences of the delimiter `/\r?\n/` in a string (leftmost,
greedy matching, as `String.prototype.split` performs it). -/
def countDelims : List Char → Nat
  | [] => 0
  | c :: rest =>
    if c = nl then countDelims rest + 1
    else if c = cr then
      match rest with
      | [] => 0
      | c2 :: rest2 => if c2 = nl then countDelims rest2 + 1 else countDelims (c2 :: rest2)
    else countDelims rest

/-- Observable state of one `LineBuffer` instance: the mutable fields of the
class plus a log of the events it has emitted (`'line'` payloads in order, and
counts of `'done'` and `'drain'` events). -/
structure LineBuffer where
  buffer : List Char
  queue : List (List Char)
  lineCount : Nat
  corked : Bool
  paused : Bool
  emitted : List (List Char)
  done : Nat
  drains : Nat
deriving DecidableEq

namespace LineBuffer

/-- Constructor options that influence the modelled behavior:
`maxBufferSize` (default `1024 * 1024`), `flushLineCount` (`none` models the
default `Infinity`) and the optional per-line `transform` function. -/
structure Config where
  maxBufferSize : Nat
  flushLineCount : Option Nat
  transformFn : Option (List Char → List Char)

/-- The defaults from the `LineBuffer` constructor. -/
def defaultCfg : Config :=
  { maxBufferSize := 1024 * 1024, flushLineCount := none, transformFn := none }

/-- The state of a freshly constructed `LineBuffer`. -/
def fresh : LineBuffer :=
  { buffer := [], queue := [], lineCount := 0, corked := false, paused := false,
    emitted := [], done := 0, drains := 0 }

/-- `if (this.transformFn) line = this.transformFn(line)`. -/
def applyT (cfg : Config) (line : List Char) : List Char :=
  match cfg.transformFn with
  | some f => f line
  | none => line

/-- `_flush()`: only when not corked and the queue is non-empty, transform and
emit every queued line in order and clear the queue. -/
def flushQ (cfg : Config) (s : LineBuffer) : LineBuffer :=
  if s.corked = false ∧ s.queue ≠ [] then
    { s with emitted := s.emitted ++ s.queue.map (applyT cfg), queue := [] }
  else s

/-- `this.lineCount >= this.flushLineCount` (with `Infinity` modelled as
`none`, for which the comparison is always false). -/
def thresholdHit (cfg : Config) (n : Nat) : Bool :=
  match cfg.flushLineCount with
  | some k => k ≤ n
  | none => false

/-- Body of the `lines.forEach` callback in `write`: queue the line when
corked, otherwise transform it, count it, emit it and auto-flush once the
configured line threshold is reached. -/
def processLine (cfg : Config) (s : LineBuffer) (line : List Char) : LineBuffer :=
  if s.corked then
    { s with queue := s.queue ++ [line] }
  else
    let l := applyT cfg line
    let s1 := { s with lineCount := s.lineCount + 1, emitted := s.emitted ++ [l] }
    if thresholdHit cfg s1.lineCount then flushQ cfg s1 else s1

/-- `write(chunk)`: drop the chunk when paused (returning `false`); otherwise
append it to the buffer, split on the delimiter, keep the final fragment as
the new buffer, process every complete line, force a flush when the buffer
exceeds `maxBufferSize`, and return `!this.corked`. -/
def write (cfg : Config) (s : LineBuffer) (chunk : List Char) : LineBuffer × Bool :=
  if s.paused then (s, false)
  else
    let p := splitLines (s.buffer ++ chunk)
    let s1 := { s with buffer := p.2 }
    let s2 := p.1.foldl (processLine cfg) s1
    let s3 := if cfg.maxBufferSize < s2.buffer.length then flushQ cfg s2 else s2
    (s3, !s3.corked)

/-- `cork()`. -/
def cork (s : LineBuffer) : LineBuffer := { s with corked := true }

/-- `uncork()`: clear the corked flag, flush, emit `'drain'`. -/
def uncork (cfg : Config) (s : LineBuffer) : LineBuffer :=
  let s1 := { s with corked := false }
  let s2 := flushQ cfg s1
  { s2 with drains := s2.drains + 1 }

/-- `end(callback)`: emit the pending buffer as a final raw line when
non-empty, clear it, and emit `'done'`.  The queue is not touched and the
optional callback does not affect the state. -/
def endOp (s : LineBuffer) : LineBuffer :=
  let s1 :=
    if s.buffer.isEmpty then s
    else { s with emitted := s.emitted ++ [s.buffer], buffer := [] }
  { s1 with done := s1.done + 1 }

/-- `pause()`. -/
def pause (s : LineBuffer) : LineBuffer := { s with paused := true }

/-- `resume()`: clear the paused flag, re-submit the still-present pending
buffer through `write` (the buffer is not cleared first, so `write` appends it
to itself), then flush. -/
def resume (cfg : Config) (s : LineBuffer) : LineBuffer :=
  let s1 := { s with paused := false }
  let s2 := if s1.buffer ≠ [] then (write cfg s1 s1.buffer).1 else s1
  flushQ cfg s2

/-- Feed a sequence of chunks through `write`, keeping the state. -/
def writesFrom (cfg : Config) : LineBuffer → List (List Char) → LineBuffer
  | s, [] => s
  | s, c :: cs => writesFrom cfg (write cfg s c).1 cs

/-- The §8 pause/resume scenario: write `A`, pause, write `B`, resume,
write `C`. -/
def pauseScenario (cfg : Config) (A B C : List Char) : LineBuffer :=
  (write cfg (resume cfg (write cfg (pause (write cfg fresh A).1) B).1) C).1

end LineBuffer

namespace CSV

/-!
Model of `lib/csv/csv.js`.  The external collaborators are embedded as
follows: JavaScript's `Number(...)` coercion is modelled by `jsNumber`
(decimal literals with optional sign, fraction, exponent, and the `Infinity`
forms; the exotic hexadecimal/octal/binary literal forms and whitespace
trimming, which no claim exercises, are not modelled), and `dayjs`'s strict
parsing of the four default date formats is modelled by structural matchers
producing the parsed calendar components.
-/

/-- Result of JavaScript `Number(...)`: `NaN`, positive or negative
`Infinity`, or a finite value.  A finite value is the exact rational value of
the decimal literal, carried as a fraction `num / den` in lowest terms with
`den > 0` (so `val 157 50` is the number `3.14`). -/
inductive JsNum where
  | nan : JsNum
  | posInf : JsNum
  | negInf : JsNum
  | val : Int → Nat → JsNum
deriving DecidableEq

/-- Value of a digit string. -/
def digitsVal (ds : List Char) : Nat :=
  ds.foldl (fun n c => n * 10 + (c.toNat - 48)) 0

/-- Optional exponent suffix of a decimal literal: empty, or `e`/`E` followed
by an optional sign and at least one digit, consuming the whole input. -/
def parseExpPart : List Char → Option Int
  | [] => some 0
  | c :: r =>
    if c = 'e' ∨ c = 'E' then
      match r with
      | '+' :: ds =>
        if ds ≠ [] ∧ ds.all Char.isDigit then some (digitsVal ds) else none
      | '-' :: ds =>
        if ds ≠ [] ∧ ds.all Char.isDigit then some (-(digitsVal ds : Int)) else none
      | ds =>
        if ds ≠ [] ∧ ds.all Char.isDigit then some (digitsVal ds) else none
    else none

/-- Unsigned decimal literal `digits [. digits] | . digits` with optional
exponent; the entire input must be consumed.  Returns the value as an
unreduced fraction (numerator, positive denominator). -/
def parseUnsigned (s : List Char) : Option (Nat × Nat) :=
  let ip := s.takeWhile Char.isDigit
  let r1 := s.dropWhile Char.isDigit
  let fr :=
    match r1 with
    | '.' :: r => (r.takeWhile Char.isDigit, r.dropWhile Char.isDigit)
    | _ => ([], r1)
  if ip = [] ∧ fr.1 = [] then none
  else
    match parseExpPart fr.2 with
    | some e =>
      let nn := digitsVal ip * 10 ^ fr.1.length + digitsVal fr.1
      let dd := 10 ^ fr.1.length
      some (match e with
        | Int.ofNat k => (nn * 10 ^ k, dd)
        | Int.negSucc k => (nn, dd * 10 ^ (k + 1)))
    | none => none

/-- JavaScript `Number(datum)` for the string forms relevant here: the empty
string is `0`; an optional sign followed by `Infinity` is an infinity;
otherwise a fully-consumed decimal literal (reduced to lowest terms), and
anything else is `NaN`. -/
def jsNumber (s : List Char) : JsNum :=
  if s = [] then .val 0 1
  else
    let neg := s.head? = some '-'
    let body := if s.head? = some '-' ∨ s.head? = some '+' then s.tail else s
    if body = "Infinity".toList then (if neg then .negInf else .posInf)
    else
      match parseUnsigned body with
      | some p =>
        let g := Nat.gcd p.1 p.2
        .val (if neg then -((p.1 / g : Nat) : Int) else ((p.1 / g : Nat) : Int)) (p.2 / g)
      | none => .nan

/-- Calendar components carried by a parsed date (`new Date(dt.valueOf())` is
represented by the components the strict format parse produced). -/
structure DateVal where
  year : Nat
  month : Nat
  day : Nat
  hour : Nat
  minute : Nat
  second : Nat
deriving DecidableEq

/-- Two-digit field. -/
def digit2 (a b : Char) : Option Nat :=
  if a.isDigit ∧ b.isDigit then some ((a.toNat - 48) * 10 + (b.toNat - 48)) else none

/-- Four-digit field. -/
def digit4 (a b c d : Char) : Option Nat :=
  if a.isDigit ∧ b.isDigit ∧ c.isDigit ∧ d.isDigit then
    some (((a.toNat - 48) * 10 + (b.toNat - 48)) * 100 + (c.toNat - 48) * 10 + (d.toNat - 48))
  else none

/-- Days in a month of the Gregorian calendar. -/
def daysInMonth (y m : Nat) : Nat :=
  if m = 2 then (if (y % 4 = 0 ∧ y % 100 ≠ 0) ∨ y % 400 = 0 then 29 else 28)
  else if m = 4 ∨ m = 6 ∨ m = 9 ∨ m = 11 then 30
  else 31

/-- Calendar-valid date at midnight, as strict parsing requires. -/
def mkDate (y m d : Nat) : Option DateVal :=
  if 1 ≤ m ∧ m ≤ 12 ∧ 1 ≤ d ∧ d ≤ daysInMonth y m then some ⟨y, m, d, 0, 0, 0⟩ else none

/-- Valid time-of-day fields. -/
def mkTime (y m d hh mi ss : Nat) : Option DateVal :=
  if hh ≤ 23 ∧ mi ≤ 59 ∧ ss ≤ 59 then
    match mkDate y m d with
    | some dv => some { dv with hour := hh, minute := mi, second := ss }
    | none => none
  else none

/-- Strict `YYYY-MM-DD`. -/
def fmtYMD (s : List Char) : Option DateVal :=
  match s with
  | [y1, y2, y3, y4, h1, m1, m2, h2, d1, d2] =>
    if h1 = '-' ∧ h2 = '-' then
      match digit4 y1 y2 y3 y4, digit2 m1 m2, digit2 d1 d2 with
      | some y, some m, some d => mkDate y m d
      | _, _, _ => none
    else none
  | _ => none

/-- Strict `MM-DD-YYYY`. -/
def fmtMDY (s : List Char) : Option DateVal :=
  match s with
  | [m1, m2, h1, d1, d2, h2, y1, y2, y3, y4] =>
    if h1 = '-' ∧ h2 = '-' then
      match digit4 y1 y2 y3 y4, digit2 m1 m2, digit2 d1 d2 with
      | some y, some m, some d => mkDate y m d
      | _, _, _ => none
    else none
  | _ => none

/-- Strict `YYYY-MM-DD[T]HH:mm:ss`. -/
def fmtTimestamp (s : List Char) : Option DateVal :=
  match s with
  | [y1, y2, y3, y4, h1, m1, m2, h2, d1, d2, t, hh1, hh2, c1, mi1, mi2, c2, s1, s2] =>
    if h1 = '-' ∧ h2 = '-' ∧ t = 'T' ∧ c1 = ':' ∧ c2 = ':' then
      match digit4 y1 y2 y3 y4, digit2 m1 m2, digit2 d1 d2,
            digit2 hh1 hh2, digit2 mi1 mi2, digit2 s1 s2 with
      | some y, some m, some d, some hh, some mi, some ss => mkTime y m d hh mi ss
      | _, _, _, _, _, _ => none
    else none
  | _ => none

/-- A `Z` (offset) suffix: `Z`, or a sign followed by `HH:mm`. -/
def validOffset (s : List Char) : Bool :=
  match s with
  | ['Z'] => true
  | [sgn, o1, o2, c, o3, o4] =>
    (sgn == '+' || sgn == '-') && c == ':' &&
      (match digit2 o1 o2, digit2 o3 o4 with
       | some hh, some mm => decide (hh ≤ 23) && decide (mm ≤ 59)
       | _, _ => false)
  | _ => false

/-- Strict `YYYY-MM-DD[T]HH:mm:ssZ`.  The calendar components of the local
parse are kept; the instant adjustment by the offset is not modelled (no claim
exercises a successful parse of this format). -/
def fmtTimestampZ (s : List Char) : Option DateVal :=
  match fmtTimestamp (s.take 19) with
  | some dv => if validOffset (s.drop 19) then some dv else none
  | none => none

/-- The `dateFormats.reduce` loop: the first format that validates wins. -/
def tryFormats : List (List Char → Option DateVal) → List Char → Option DateVal
  | [], _ => none
  | f :: fs, s =>
    match f s with
    | some d => some d
    | none => tryFormats fs s

/-- The default `dateFormats` list, in source order. -/
def defaultDateFormats : List (List Char → Option DateVal) :=
  [fmtTimestampZ, fmtTimestamp, fmtMDY, fmtYMD]

/-- One typed cell value produced by the mapper. -/
inductive Scalar where
  | null : Scalar
  | num : JsNum → Scalar
  | date : DateVal → Scalar
  | bool : Bool → Scalar
  | err : List Char → Scalar
  | str : List Char → Scalar
deriving DecidableEq

/-- The `SpecialValues` lookup table. -/
def specialValues (s : List Char) : Option Scalar :=
  if s = "true".toList then some (.bool true)
  else if s = "false".toList then some (.bool false)
  else if s = "#N/A".toList then some (.err "#N/A".toList)
  else if s = "#REF!".toList then some (.err "#REF!".toList)
  else if s = "#NAME?".toList then some (.err "#NAME?".toList)
  else if s = "#DIV/0!".toList then some (.err "#DIV/0!".toList)
  else if s = "#NULL!".toList then some (.err "#NULL!".toList)
  else if s = "#VALUE!".toList then some (.err "#VALUE!".toList)
  else if s = "#NUM!".toList then some (.err "#NUM!".toList)
  else none

/-- `defaultMap(dateFormats)` applied to one datum: empty string, then the
numeric branch guarded by `!Number.isNaN(datumNumber) && datumNumber !==
Infinity`, then the date formats in order, then `SpecialValues`, then the
string itself. -/
def defaultMap (dateFormats : List (List Char → Option DateVal)) (datum : List Char) : Scalar :=
  if datum = [] then .null
  else
    let n := jsNumber datum
    if n ≠ JsNum.nan ∧ n ≠ JsNum.posInf then .num n
    else
      match tryFormats dateFormats datum with
      | some d => .date d
      | none =>
        match specialValues datum with
        | some v => v
        | none => .str datum

/-- `readFile(filename, options)`, with the filesystem abstracted: the
`exists` check is an input boolean and the outcome of `this.read(stream,
options)` is an input `Except`.  Returns the overall outcome paired with
whether `stream.close()` was reached (the `await` re-throws a rejection, so
the close call is skipped on a failed read). -/
def readFileModel {α : Type} (filename : List Char) (pathExists : Bool)
    (readResult : Except (List Char) α) : Except (List Char) α × Bool :=
  if pathExists then
    match readResult with
    | .ok t => (.ok t, true)
    | .error e => (.error e, false)
  else (.error ("File not found: ".toList ++ filename), false)

/-- The batching loop of `streamFile`: each `'data'` event pushes a row and
hands the batch to `processBatch` once it reaches 1000 rows; the `'end'`
event flushes a non-empty remainder once. -/
def batchLoop {α : Type} : List α → List α → List (List α)
  | pending, [] => if pending.isEmpty then [] else [pending]
  | pending, r :: rest =>
    if 1000 ≤ (pending ++ [r]).length then (pending ++ [r]) :: batchLoop [] rest
    else batchLoop (pending ++ [r]) rest

/-- Sizes of the delivered batches, computed from counts alone: `p` rows are
pending and `n` rows remain in the source. -/
def lengthsAux : Nat → Nat → List Nat
  | p, 0 => if p = 0 then [] else [p]
  | p, n + 1 => if 1000 ≤ p + 1 then (p + 1) :: lengthsAux 0 n else lengthsAux (p + 1) n

end CSV

/-! Scenario states and configurations used by the claim theorems below. -/

/-- Scenario state for C1: a corked scanner holding one queued line. -/
def c1State : LineBuffer :=
  { buffer := [], queue := [['a']], lineCount := 0, corked := true, paused := false,
    emitted := [], done := 0, drains := 0 }

/-- Configuration with `maxBufferSize := 1` (the smallest value the
constructor's `options.maxBufferSize || 1024 * 1024` default accepts), so a
two-character pending buffer triggers the safety-valve flush inside
`write`. -/
def c1Cfg : LineBuffer.Config :=
  { maxBufferSize := 1, flushLineCount := none, transformFn := none }

/-- The C2 scenario: cork a fresh scanner, write a sequence of chunks, then
uncork. -/
def corkWriteUncork (cs : List (List Char)) : LineBuffer :=
  LineBuffer.uncork LineBuffer.defaultCfg
    (LineBuffer.writesFrom LineBuffer.defaultCfg (LineBuffer.cork LineBuffer.fresh) cs)

/-- Scenario state for the C10 witness: corked, one queued line, non-empty
pending fragment. -/
def c10State : LineBuffer :=
  { buffer := ['p'], queue := [['q']], lineCount := 0, corked := true, paused := false,
    emitted := [], done := 0, drains := 0 }

/-- Scenario state for the C4 witness: a paused scanner holding the pending
fragment `"x"`. -/
def c4State : LineBuffer := { LineBuffer.fresh with buffer := ['x'], paused := true }

/-! ## Theory of the delimiter split -/

/-- Induction over a character list that provides, at a two-or-more-element
list, the induction hypothesis both one and two elements down — matching the
lookahead in `splitLines`. -/
theorem twoStepInduction {motive : List Char → Prop}
    (h0 : motive [])
    (h1 : ∀ c, motive [c])
    (h2 : ∀ c1 c2 rest, motive (c2 :: rest) → motive rest → motive (c1 :: c2 :: rest)) :
    ∀ s, motive s := by
  have key : ∀ s, motive s ∧ ∀ c, motive (c :: s) := by
    intro s
    induction s with
    | nil => exact ⟨h0, h1⟩
    | cons c rest ih => exact ⟨ih.2 c, fun c1 => h2 c1 c rest (ih.2 c) ih.1⟩
  exact fun s => (key s).1

theorem splitLines_nl (rest : List Char) :
    splitLines (nl :: rest) = ([] :: (splitLines rest).1, (splitLines rest).2) := by
  rw [splitLines.eq_def]
  simp

theorem splitLines_crnl (rest : List Char) :
    splitLines (cr :: nl :: rest) = ([] :: (splitLines rest).1, (splitLines rest).2) := by
  have hcn : cr ≠ nl := by decide
  rw [splitLines.eq_def]
  simp [hcn]

theorem splitLines_cr_nil : splitLines [cr] = ([], [cr]) := by
  have hcn : cr ≠ nl := by decide
  rw [splitLines.eq_def]
  simp [hcn]

theorem splitLines_cons (c : Char) (rest : List Char) (h1 : c ≠ nl) (h2 : c ≠ cr) :
    splitLines (c :: rest) = pushChar c (splitLines rest) := by
  rw [splitLines.eq_def]
  simp [h1, h2]

theorem splitLines_cr_cons (c2 : Char) (rest2 : List Char) (h : c2 ≠ nl) :
    splitLines (cr :: c2 :: rest2) = pushChar cr (splitLines (c2 :: rest2)) := by
  have hcn : cr ≠ nl := by decide
  rw [splitLines.eq_def]
  simp [hcn, h]

theorem countDelims_nl (rest : List Char) : countDelims (nl :: rest) = countDelims rest + 1 := by
  rw [countDelims.eq_def]
  simp

theorem countDelims_crnl (rest : List Char) :
    countDelims (cr :: nl :: rest) = countDelims rest + 1 := by
  have hcn : cr ≠ nl := by decide
  rw [countDelims.eq_def]
  simp [hcn]

theorem countDelims_cons (c : Char) (rest : List Char) (h1 : c ≠ nl) (h2 : c ≠ cr) :
    countDelims (c :: rest) = countDelims rest := by
  rw [countDelims.eq_def]
  simp [h1, h2]

theorem countDelims_cr_cons (c2 : Char) (rest2 : List Char) (h : c2 ≠ nl) :
    countDelims (cr :: c2 :: rest2) = countDelims (c2 :: rest2) := by
  have hcn : cr ≠ nl := by decide
  rw [countDelims.eq_def]
  simp [hcn, h]

theorem pushChar_lines_length (c : Char) (p : List (List Char) × List Char) :
    ((pushChar c p).1).length = p.1.length := by
  rcases p with ⟨_ | ⟨l, ls⟩, f⟩ <;> rfl

/-- The number of complete lines produced by the split equals the number of
delimiter occurrences. -/
theorem splitLines_length_eq_countDelims :
    ∀ s, ((splitLines s).1).length = countDelims s := by
  refine twoStepInduction rfl (fun c => ?_) (fun c1 c2 rest ih1 ih2 => ?_)
  · by_cases h1 : c = nl
    · subst h1; rfl
    · by_cases h2 : c = cr
      · subst h2; rfl
      · rw [splitLines_cons c [] h1 h2, countDelims_cons c [] h1 h2, pushChar_lines_length]
        decide
  · by_cases h1 : c1 = nl
    · subst h1; rw [splitLines_nl, countDelims_nl]; simpa using ih1
    · by_cases h2 : c1 = cr
      · subst h2
        by_cases h3 : c2 = nl
        · subst h3; rw [splitLines_crnl, countDelims_crnl]; simpa using ih2
        · rw [splitLines_cr_cons c2 rest h3, countDelims_cr_cons c2 rest h3,
            pushChar_lines_length]; exact ih1
      · rw [splitLines_cons c1 _ h1 h2, countDelims_cons c1 _ h1 h2, pushChar_lines_length]
        exact ih1

/-- A string with no delimiter occurrence splits into no complete line and
itself as the trailing fragment. -/
theorem splitLines_of_countDelims_zero :
    ∀ s, countDelims s = 0 → splitLines s = ([], s) := by
  refine twoStepInduction (fun _ => by decide) (fun c hc => ?_) (fun c1 c2 rest ih1 _ hc => ?_)
  · by_cases h1 : c = nl
    · subst h1; simp [countDelims_nl] at hc
    · by_cases h2 : c = cr
      · subst h2; exact splitLines_cr_nil
      · rw [splitLines_cons c [] h1 h2]; rfl
  · by_cases h1 : c1 = nl
    · subst h1; simp [countDelims_nl] at hc
    · by_cases h2 : c1 = cr
      · subst h2
        by_cases h3 : c2 = nl
        · subst h3; simp [countDelims_crnl] at hc
        · rw [countDelims_cr_cons c2 rest h3] at hc
          rw [splitLines_cr_cons c2 rest h3, ih1 hc]; rfl
      · rw [countDelims_cons c1 _ h1 h2] at hc
        rw [splitLines_cons c1 _ h1 h2, ih1 hc]; rfl

/-- The delimiter count of a string is zero exactly when it contains no line
feed (every occurrence of `/\r?\n/` contains a `'\n'`). -/
theorem countDelims_eq_zero_iff : ∀ s, countDelims s = 0 ↔ nl ∉ s := by
  have hnil : countDelims [] = 0 := by rw [countDelims.eq_def]
  refine twoStepInduction (by decide) (fun c => ?_) (fun c1 c2 rest ih1 _ => ?_)
  · by_cases h1 : c = nl
    · subst h1; simp [countDelims_nl]
    · by_cases h2 : c = cr
      · subst h2; decide
      · rw [countDelims_cons c [] h1 h2]; simp [hnil, Ne.symm h1]
  · by_cases h1 : c1 = nl
    · subst h1; simp [countDelims_nl]
    · by_cases h2 : c1 = cr
      · subst h2
        by_cases h3 : c2 = nl
        · subst h3; simp [countDelims_crnl]
        · rw [countDelims_cr_cons c2 rest h3, ih1]
          simp [Ne.symm h1]
      · rw [countDelims_cons c1 _ h1 h2, ih1]
        simp [Ne.symm h1]

/-- A string whose split has no complete line is its own trailing fragment. -/
theorem splitLines_frag_of_no_lines (s : List Char) (h : (splitLines s).1 = []) :
    (splitLines s).2 = s := by
  have hc : countDelims s = 0 := by
    rw [← splitLines_length_eq_countDelims, h]; rfl
  rw [splitLines_of_countDelims_zero s hc]

theorem splitLines_nil : splitLines [] = ([], []) := rfl

theorem pushChar_nil (c : Char) (f : List Char) : pushChar c ([], f) = ([], c :: f) := rfl

theorem pushChar_cons (c : Char) (l : List Char) (ls : List (List Char)) (f : List Char) :
    pushChar c (l :: ls, f) = ((c :: l) :: ls, f) := rfl

/-- The fragment left over by a split never contains a line feed. -/
theorem nl_not_mem_frag : ∀ s, nl ∉ (splitLines s).2 := by
  refine twoStepInduction (by simp [splitLines_nil]) (fun c => ?_) (fun c1 c2 rest ih1 ih2 => ?_)
  · by_cases h1 : c = nl
    · subst h1; simp [splitLines_nl, splitLines_nil]
    · by_cases h2 : c = cr
      · subst h2; simp [splitLines_cr_nil]; decide
      · rw [splitLines_cons c [] h1 h2, splitLines_nil, pushChar_nil]
        simp [Ne.symm h1]
  · by_cases h1 : c1 = nl
    · subst h1; rw [splitLines_nl]; exact ih1
    · by_cases h2 : c1 = cr
      · subst h2
        by_cases h3 : c2 = nl
        · subst h3; rw [splitLines_crnl]; exact ih2
        · rw [splitLines_cr_cons c2 rest h3]
          rcases hsl : splitLines (c2 :: rest) with ⟨L1, L2⟩
          rcases L1 with _ | ⟨l, ls⟩
          · rw [pushChar_nil]
            have hL2 : nl ∉ L2 := by have := ih1; rw [hsl] at this; exact this
            have hcn : cr ≠ nl := by decide
            simp [Ne.symm hcn, hL2]
          · rw [pushChar_cons]
            have := ih1; rw [hsl] at this; exact this
      · rw [splitLines_cons c1 _ h1 h2]
        rcases hsl : splitLines (c2 :: rest) with ⟨L1, L2⟩
        rcases L1 with _ | ⟨l, ls⟩
        · rw [pushChar_nil]
          have hL2 : nl ∉ L2 := by have := ih1; rw [hsl] at this; exact this
          simp [Ne.symm h1, hL2]
        · rw [pushChar_cons]
          have := ih1; rw [hsl] at this; exact this

/-- Splitting distributes over appending: the complete lines of `s ++ t` are
those of `s` followed by those obtained by re-scanning the trailing fragment
of `s` with `t` appended — the invariant behind the incremental `write`
loop. -/
theorem splitLines_append (s t : List Char) :
    splitLines (s ++ t) =
      ((splitLines s).1 ++ (splitLines ((splitLines s).2 ++ t)).1,
       (splitLines ((splitLines s).2 ++ t)).2) := by
  induction s using twoStepInduction with
  | h0 => simp [splitLines_nil]
  | h1 c =>
    by_cases h1 : c = nl
    · subst h1
      simp [List.cons_append, splitLines_nl, splitLines_nil]
    · by_cases h2 : c = cr
      · subst h2
        simp [List.cons_append, splitLines_cr_nil]
      · have e1 : splitLines [c] = ([], [c]) := by
          rw [splitLines_cons c [] h1 h2]; rfl
        simp [List.cons_append, e1]
  | h2 c1 c2 rest ih1 ih2 =>
    by_cases h1 : c1 = nl
    · subst h1
      simp only [List.cons_append] at ih1
      simp [List.cons_append, splitLines_nl, ih1, List.append_assoc]
    · by_cases h2 : c1 = cr
      · subst h2
        by_cases h3 : c2 = nl
        · subst h3
          simp [List.cons_append, splitLines_crnl, ih2, List.append_assoc]
        · rcases hsl : splitLines (c2 :: rest) with ⟨L1, L2⟩
          rw [hsl] at ih1
          rcases L1 with _ | ⟨l, ls⟩
          · have hfrag : L2 = c2 :: rest := by
              have hfl := splitLines_frag_of_no_lines (c2 :: rest) (by rw [hsl])
              rw [hsl] at hfl
              exact hfl
            subst hfrag
            simp only [List.cons_append, splitLines_cr_cons c2 (rest ++ t) h3,
              splitLines_cr_cons c2 rest h3, hsl, pushChar_nil, List.nil_append]
          · simp only [List.cons_append] at ih1
            simp only [List.cons_append, splitLines_cr_cons c2 (rest ++ t) h3,
              splitLines_cr_cons c2 rest h3, hsl, ih1, pushChar_cons]
      · rcases hsl : splitLines (c2 :: rest) with ⟨L1, L2⟩
        rw [hsl] at ih1
        rcases L1 with _ | ⟨l, ls⟩
        · have hfrag : L2 = c2 :: rest := by
            have hfl := splitLines_frag_of_no_lines (c2 :: rest) (by rw [hsl])
            rw [hsl] at hfl
            exact hfl
          subst hfrag
          simp only [List.cons_append, splitLines_cons c1 (c2 :: (rest ++ t)) h1 h2,
            splitLines_cons c1 (c2 :: rest) h1 h2, hsl, pushChar_nil, List.nil_append]
        · simp only [List.cons_append] at ih1
          simp only [List.cons_append, splitLines_cons c1 (c2 :: (rest ++ t)) h1 h2,
            splitLines_cons c1 (c2 :: rest) h1 h2, hsl, ih1, pushChar_cons]

namespace LineBuffer

theorem flushQ_corked (cfg : Config) (s : LineBuffer) (h : s.corked = true) :
    flushQ cfg s = s := by
  simp [flushQ, h]

theorem flushQ_empty (cfg : Config) (s : LineBuffer) (h : s.queue = []) :
    flushQ cfg s = s := by
  simp [flushQ, h]

theorem flushQ_buffer (cfg : Config) (s : LineBuffer) : (flushQ cfg s).buffer = s.buffer := by
  unfold flushQ
  split <;> rfl

/-- While corked, the `forEach` body only appends the lines to the queue. -/
theorem foldl_processLine_corked (cfg : Config) :
    ∀ (lines : List (List Char)) (s : LineBuffer), s.corked = true →
      lines.foldl (processLine cfg) s = { s with queue := s.queue ++ lines } := by
  intro lines
  induction lines with
  | nil =>
    intro s _
    simp
  | cons l ls ih =>
    intro s h
    rw [List.foldl_cons]
    have hpl : processLine cfg s l = { s with queue := s.queue ++ [l] } := by
      simp [processLine, h]
    rw [hpl, ih { s with queue := s.queue ++ [l] } h]
    simp

/-- With no transform and no auto-flush threshold, the uncorked `forEach` body
only emits the lines and counts them. -/
theorem foldl_processLine_plain (cfg : Config) (hT : cfg.transformFn = none)
    (hF : cfg.flushLineCount = none) :
    ∀ (lines : List (List Char)) (s : LineBuffer), s.corked = false →
      lines.foldl (processLine cfg) s =
        { s with emitted := s.emitted ++ lines,
                 lineCount := s.lineCount + lines.length } := by
  intro lines
  induction lines with
  | nil =>
    intro s _
    simp
  | cons l ls ih =>
    intro s h
    rw [List.foldl_cons]
    have hpl : processLine cfg s l =
        { s with lineCount := s.lineCount + 1, emitted := s.emitted ++ [l] } := by
      simp [processLine, h, applyT, hT, thresholdHit, hF]
    rw [hpl, ih { s with lineCount := s.lineCount + 1, emitted := s.emitted ++ [l] } h]
    simp [List.append_assoc]
    omega

/-- A non-paused `write` on a corked scanner moves all freshly completed
lines to the queue (and never drains it), keeps the trailing fragment, and
returns `false`. -/
theorem write_corked (cfg : Config) (s : LineBuffer) (c : List Char)
    (hc : s.corked = true) (hp : s.paused = false) :
    write cfg s c =
      ({ s with buffer := (splitLines (s.buffer ++ c)).2,
                queue := s.queue ++ (splitLines (s.buffer ++ c)).1 }, false) := by
  unfold write
  rw [hp]
  simp [foldl_processLine_corked cfg, flushQ, hc]

/-- A non-paused `write` on an uncorked queue-empty scanner under a
no-transform, no-threshold configuration emits all freshly completed lines in
order, counts them, keeps the trailing fragment, and returns `true`. -/
theorem write_plain (cfg : Config) (hT : cfg.transformFn = none)
    (hF : cfg.flushLineCount = none) (s : LineBuffer) (c : List Char)
    (hc : s.corked = false) (hp : s.paused = false) (hq : s.queue = []) :
    write cfg s c =
      ({ s with buffer := (splitLines (s.buffer ++ c)).2,
                emitted := s.emitted ++ (splitLines (s.buffer ++ c)).1,
                lineCount := s.lineCount + ((splitLines (s.buffer ++ c)).1).length }, true) := by
  unfold write
  rw [hp]
  simp [foldl_processLine_plain cfg hT hF, flushQ, hc, hq]

/-- First component of `write_corked`. -/
theorem write_corked_fst (cfg : Config) (s : LineBuffer) (c : List Char)
    (hc : s.corked = true) (hp : s.paused = false) :
    (write cfg s c).1 =
      { s with buffer := (splitLines (s.buffer ++ c)).2,
               queue := s.queue ++ (splitLines (s.buffer ++ c)).1 } := by
  rw [write_corked cfg s c hc hp]

/-- First component of `write_plain`. -/
theorem write_plain_fst (cfg : Config) (hT : cfg.transformFn = none)
    (hF : cfg.flushLineCount = none) (s : LineBuffer) (c : List Char)
    (hc : s.corked = false) (hp : s.paused = false) (hq : s.queue = []) :
    (write cfg s c).1 =
      { s with buffer := (splitLines (s.buffer ++ c)).2,
               emitted := s.emitted ++ (splitLines (s.buffer ++ c)).1,
               lineCount := s.lineCount + ((splitLines (s.buffer ++ c)).1).length } := by
  rw [write_plain cfg hT hF s c hc hp hq]

theorem writesFrom_nil (cfg : Config) (s : LineBuffer) : writesFrom cfg s [] = s := rfl

theorem writesFrom_cons (cfg : Config) (s : LineBuffer) (c : List Char) (cs : List (List Char)) :
    writesFrom cfg s (c :: cs) = writesFrom cfg (write cfg s c).1 cs := rfl

/-- Running a corked, non-paused scanner over a chunk sequence queues exactly
the complete lines of the concatenation, in order, and keeps its trailing
fragment; nothing is emitted and nothing is counted. -/
theorem writesFrom_corked (cfg : Config) :
    ∀ (cs : List (List Char)) (s : LineBuffer), s.corked = true → s.paused = false →
      nl ∉ s.buffer →
      writesFrom cfg s cs =
        { s with buffer := (splitLines (s.buffer ++ cs.flatten)).2,
                 queue := s.queue ++ (splitLines (s.buffer ++ cs.flatten)).1 } := by
  intro cs
  induction cs with
  | nil =>
    intro s hc hp hb
    have h0 : countDelims s.buffer = 0 := (countDelims_eq_zero_iff s.buffer).mpr hb
    rw [writesFrom_nil]
    simp [splitLines_of_countDelims_zero s.buffer h0]
  | cons c cs ih =>
    intro s hc hp hb
    rw [writesFrom_cons]
    rw [write_corked_fst cfg s c hc hp]
    refine Eq.trans (ih _ hc hp (nl_not_mem_frag (s.buffer ++ c))) ?_
    have hj : (c :: cs).flatten = c ++ cs.flatten := rfl
    rw [hj, ← List.append_assoc, splitLines_append (s.buffer ++ c) cs.flatten]
    simp [List.append_assoc]

/-- Running an uncorked, non-paused, queue-empty scanner under a no-transform,
no-threshold configuration over a chunk sequence emits exactly the complete
lines of the concatenation, in order, counts them, and keeps the trailing
fragment. -/
theorem writesFrom_plain (cfg : Config) (hT : cfg.transformFn = none)
    (hF : cfg.flushLineCount = none) :
    ∀ (cs : List (List Char)) (s : LineBuffer), s.corked = false → s.paused = false →
      s.queue = [] → nl ∉ s.buffer →
      writesFrom cfg s cs =
        { s with buffer := (splitLines (s.buffer ++ cs.flatten)).2,
                 emitted := s.emitted ++ (splitLines (s.buffer ++ cs.flatten)).1,
                 lineCount := s.lineCount + ((splitLines (s.buffer ++ cs.flatten)).1).length } := by
  intro cs
  induction cs with
  | nil =>
    intro s hc hp hq hb
    have h0 : countDelims s.buffer = 0 := (countDelims_eq_zero_iff s.buffer).mpr hb
    rw [writesFrom_nil]
    simp [splitLines_of_countDelims_zero s.buffer h0]
  | cons c cs ih =>
    intro s hc hp hq hb
    rw [writesFrom_cons]
    rw [write_plain_fst cfg hT hF s c hc hp hq]
    refine Eq.trans (ih _ hc hp hq (nl_not_mem_frag (s.buffer ++ c))) ?_
    have hj : (c :: cs).flatten = c ++ cs.flatten := rfl
    rw [hj, ← List.append_assoc, splitLines_append (s.buffer ++ c) cs.flatten]
    simp [List.append_assoc]
    omega

theorem processLine_buffer (cfg : Config) (s : LineBuffer) (line : List Char) :
    (processLine cfg s line).buffer = s.buffer := by
  unfold processLine
  split
  · rfl
  · dsimp only
    split
    · rw [flushQ_buffer]
    · rfl

theorem foldl_processLine_buffer (cfg : Config) :
    ∀ (lines : List (List Char)) (s : LineBuffer),
      (lines.foldl (processLine cfg) s).buffer = s.buffer := by
  intro lines
  induction lines with
  | nil => intro s; rfl
  | cons l ls ih =>
    intro s
    rw [List.foldl_cons, ih, processLine_buffer]

/-- A non-paused `write` always leaves the trailing fragment of the split as
the new buffer, whatever else happens. -/
theorem write_buffer_not_paused (cfg : Config) (s : LineBuffer) (c : List Char)
    (hp : s.paused = false) :
    ((write cfg s c).1).buffer = (splitLines (s.buffer ++ c)).2 := by
  unfold write
  rw [hp]
  simp only [Bool.false_eq_true, if_false]
  split
  · rw [flushQ_buffer, foldl_processLine_buffer]
  · rw [foldl_processLine_buffer]

end LineBuffer

namespace CSV

theorem batchLoop_nil {α : Type} (pending : List α) :
    batchLoop pending [] = if pending.isEmpty then [] else [pending] := rfl

theorem batchLoop_cons {α : Type} (pending : List α) (r : α) (rest : List α) :
    batchLoop pending (r :: rest) =
      if 1000 ≤ (pending ++ [r]).length then (pending ++ [r]) :: batchLoop [] rest
      else batchLoop (pending ++ [r]) rest := rfl

theorem lengthsAux_zero (p : Nat) : lengthsAux p 0 = if p = 0 then [] else [p] := rfl

theorem lengthsAux_succ (p n : Nat) :
    lengthsAux p (n + 1) =
      if 1000 ≤ p + 1 then (p + 1) :: lengthsAux 0 n else lengthsAux (p + 1) n := rfl

/-- The batch sizes delivered by the loop depend only on the pending and
remaining row counts. -/
theorem batchLoop_lengths {α : Type} :
    ∀ (rows pending : List α),
      (batchLoop pending rows).map List.length = lengthsAux pending.length rows.length := by
  intro rows
  induction rows with
  | nil =>
    intro pending
    rw [batchLoop_nil, List.length_nil, lengthsAux_zero]
    rcases pending with _ | ⟨a, as⟩
    · simp
    · simp
  | cons r rest ih =>
    intro pending
    rw [batchLoop_cons, List.length_cons, lengthsAux_succ]
    by_cases h : 1000 ≤ pending.length + 1
    · rw [if_pos (by simpa using h), if_pos h]
      simp [ih]
    · rw [if_neg (by simpa using h), if_neg h]
      rw [ih]
      simp
  
/-- The loop never hands an empty batch to the sink. -/
theorem batchLoop_no_empty {α : Type} :
    ∀ (rows pending : List α), [] ∉ batchLoop pending rows := by
  intro rows
  induction rows with
  | nil =>
    intro pending
    rw [batchLoop_nil]
    rcases pending with _ | ⟨a, as⟩
    · simp
    · simp
  | cons r rest ih =>
    intro pending
    rw [batchLoop_cons]
    by_cases h : 1000 ≤ (pending ++ [r]).length
    · rw [if_pos h]
      intro hmem
      rcases List.mem_cons.mp hmem with h1 | h2
      · have hne : pending ++ [r] ≠ [] := by simp
        exact hne h1.symm
      · exact ih [] h2
    · rw [if_neg h]
      exact ih (pending ++ [r])

/-- `SpecialValues` produces only booleans and error sentinels, never a
number. -/
theorem specialValues_not_num (s : List Char) (x : Scalar)
    (h : specialValues s = some x) : ∀ (v : JsNum), x ≠ Scalar.num v := by
  unfold specialValues at h
  split_ifs at h <;>
    (injection h with h2; subst h2; intro v hv; exact Scalar.noConfusion hv)

end CSV

/-! ## Claim verification -/

/-- C1 counterexample: on a corked scanner with one queued line and
`maxBufferSize := 1`, `write` of the delimiterless chunk `"xy"` leaves a
pending buffer longer than `maxBufferSize` and so triggers the safety-valve
flush, yet the queued line stays queued and nothing is emitted — the
max-buffer-size flush does not force queued lines out while corked. -/
theorem c1_counterexample :
    ((LineBuffer.write c1Cfg c1State ['x', 'y']).1).queue = [['a']] ∧
    ((LineBuffer.write c1Cfg c1State ['x', 'y']).1).emitted = [] ∧
    ((LineBuffer.write c1Cfg c1State ['x', 'y']).1).buffer = ['x', 'y'] := by
  decide

/-- C1 (amended): whenever a flush is performed while the scanner is not
corked, every queued line is transformed and emitted in queue order and the
queue is emptied; while corked, flush is a no-op that leaves the state (in
particular the queue) unchanged, and a corked `write` only ever extends the
queue — the safety valve never forces queued lines out while corked. -/
theorem c1_flush_amended (cfg : LineBuffer.Config) (s : LineBuffer) :
    (s.corked = false →
      LineBuffer.flushQ cfg s =
        { s with emitted := s.emitted ++ s.queue.map (LineBuffer.applyT cfg), queue := [] }) ∧
    (s.corked = true → LineBuffer.flushQ cfg s = s) ∧
    (∀ c, s.corked = true → s.paused = false →
      ((LineBuffer.write cfg s c).1).queue = s.queue ++ (splitLines (s.buffer ++ c)).1) := by
  refine ⟨?_, LineBuffer.flushQ_corked cfg s, ?_⟩
  · intro h
    rcases s with ⟨b, q, lc, ck, p, em, d, dr⟩
    dsimp only at h
    subst h
    unfold LineBuffer.flushQ
    by_cases hq : q = []
    · subst hq
      simp
    · simp [hq]
  · intro c h hp
    rw [LineBuffer.write_corked_fst cfg s c h hp]

/-- C1 witness: the amended flush behavior at concrete corked and uncorked
states. -/
theorem c1_flush_amended_witness :
    (LineBuffer.flushQ LineBuffer.defaultCfg { c1State with corked := false } =
      { { c1State with corked := false } with
          emitted := ({ c1State with corked := false } : LineBuffer).emitted ++
            ({ c1State with corked := false } : LineBuffer).queue.map
              (LineBuffer.applyT LineBuffer.defaultCfg),
          queue := [] }) ∧
    (LineBuffer.flushQ LineBuffer.defaultCfg c1State = c1State) ∧
    ((LineBuffer.write LineBuffer.defaultCfg c1State ['x']).1).queue =
      c1State.queue ++ (splitLines (c1State.buffer ++ ['x'])).1 :=
  ⟨(c1_flush_amended LineBuffer.defaultCfg { c1State with corked := false }).1 rfl,
   (c1_flush_amended LineBuffer.defaultCfg c1State).2.1 rfl,
   (c1_flush_amended LineBuffer.defaultCfg c1State).2.2 ['x'] rfl rfl⟩

/-- C2 counterexample: corking, writing one complete line `"a\n"`, then
uncorking emits the line, but `lineCount` is `0`, not `1` — queued lines
released by the flush are never counted. -/
theorem c2_counterexample :
    (corkWriteUncork [['a', '\n']]).emitted = [['a']] ∧
    (corkWriteUncork [['a', '\n']]).lineCount ≠ 1 := by
  decide

/-- C2 (amended): corking then writing chunks containing exactly the complete
lines of their concatenation then uncorking emits those lines in original
arrival order and empties the queue, but `lineCount` remains `0` after the
uncork — the flush path does not increment the counter. -/
theorem c2_cork_uncork_amended (cs : List (List Char)) :
    (corkWriteUncork cs).emitted = (splitLines cs.flatten).1 ∧
    (corkWriteUncork cs).lineCount = 0 ∧
    (corkWriteUncork cs).queue = [] := by
  have hb : nl ∉ (LineBuffer.cork LineBuffer.fresh).buffer := by
    simp [LineBuffer.cork, LineBuffer.fresh]
  have hrun := LineBuffer.writesFrom_corked LineBuffer.defaultCfg cs
    (LineBuffer.cork LineBuffer.fresh) rfl rfl hb
  rw [show (LineBuffer.cork LineBuffer.fresh).buffer = [] from rfl, List.nil_append,
    show (LineBuffer.cork LineBuffer.fresh).queue = [] from rfl, List.nil_append] at hrun
  unfold corkWriteUncork
  rw [hrun]
  rcases hL : (splitLines cs.flatten).1 with _ | ⟨l, ls⟩
  · simp [LineBuffer.uncork, LineBuffer.flushQ, LineBuffer.cork, LineBuffer.fresh, hL]
  · have hid : LineBuffer.applyT LineBuffer.defaultCfg = fun l => l := rfl
    simp [LineBuffer.uncork, LineBuffer.flushQ, LineBuffer.cork, LineBuffer.fresh, hL, hid]

/-- C9: `write` on a paused scanner returns `false` and leaves the state
completely unchanged (the chunk is dropped — no buffering, no emission), so
in the scenario write `A`, pause, write `B`, resume, write `C` the result is
independent of `B`: no content of `B` reaches any emitted line. -/
theorem c9_paused_write_dropped :
    (∀ (cfg : LineBuffer.Config) (s : LineBuffer) (b : List Char), s.paused = true →
      LineBuffer.write cfg s b = (s, false)) ∧
    (∀ (cfg : LineBuffer.Config) (A B Bother C : List Char),
      LineBuffer.pauseScenario cfg A B C = LineBuffer.pauseScenario cfg A Bother C) := by
  have hdrop : ∀ (cfg : LineBuffer.Config) (s : LineBuffer) (b : List Char), s.paused = true →
      LineBuffer.write cfg s b = (s, false) := by
    intro cfg s b h
    unfold LineBuffer.write
    rw [h]
    simp
  refine ⟨hdrop, ?_⟩
  intro cfg A B Bother C
  unfold LineBuffer.pauseScenario
  rw [hdrop cfg _ B rfl, hdrop cfg _ Bother rfl]

/-- C9 witness: a concrete paused scanner drops a concrete chunk. -/
theorem c9_paused_write_dropped_witness :
    LineBuffer.write LineBuffer.defaultCfg { LineBuffer.fresh with paused := true } ['b'] =
      ({ LineBuffer.fresh with paused := true }, false) :=
  c9_paused_write_dropped.1 LineBuffer.defaultCfg { LineBuffer.fresh with paused := true } ['b'] rfl

/-- C10: on a corked scanner with a non-empty queue, `end` emits only the
pending fragment (when non-empty), raises the completion signal, and leaves
the queue unchanged and non-empty — queued lines are never emitted by
`end`. -/
theorem c10_end_preserves_queue (s : LineBuffer) (_h1 : s.corked = true) (h2 : s.queue ≠ []) :
    (LineBuffer.endOp s).queue = s.queue ∧
    (LineBuffer.endOp s).queue ≠ [] ∧
    (LineBuffer.endOp s).done = s.done + 1 ∧
    (LineBuffer.endOp s).emitted =
      s.emitted ++ (if s.buffer.isEmpty then [] else [s.buffer]) := by
  unfold LineBuffer.endOp
  by_cases hb : s.buffer.isEmpty
  · simp [hb, h2]
  · simp [hb, h2]

/-- C10 witness: the `end` behavior at a concrete corked state with a queued
line. -/
theorem c10_end_preserves_queue_witness :
    (LineBuffer.endOp c10State).queue = c10State.queue ∧
    (LineBuffer.endOp c10State).queue ≠ [] ∧
    (LineBuffer.endOp c10State).done = c10State.done + 1 ∧
    (LineBuffer.endOp c10State).emitted =
      c10State.emitted ++ (if c10State.buffer.isEmpty then [] else [c10State.buffer]) :=
  c10_end_preserves_queue c10State rfl (by decide)

/-- C3: for a fresh default-configured scanner (never paused or corked), the
number of lines emitted before `end` equals the number of delimiter
occurrences in the concatenation of the chunks, and the emitted lines are the
same however the concatenation is split into chunks. -/
theorem c3_chunk_boundary_independent (cs1 cs2 : List (List Char)) (k : Nat)
    (hjoin : cs1.flatten = cs2.flatten) (hk : countDelims cs1.flatten = k) :
    (LineBuffer.writesFrom LineBuffer.defaultCfg LineBuffer.fresh cs1).emitted.length = k ∧
    (LineBuffer.writesFrom LineBuffer.defaultCfg LineBuffer.fresh cs1).emitted =
      (LineBuffer.writesFrom LineBuffer.defaultCfg LineBuffer.fresh cs2).emitted := by
  have hb : nl ∉ LineBuffer.fresh.buffer := by simp [LineBuffer.fresh]
  have h1 := LineBuffer.writesFrom_plain LineBuffer.defaultCfg rfl rfl cs1
    LineBuffer.fresh rfl rfl rfl hb
  have h2 := LineBuffer.writesFrom_plain LineBuffer.defaultCfg rfl rfl cs2
    LineBuffer.fresh rfl rfl rfl hb
  rw [show LineBuffer.fresh.buffer = [] from rfl, List.nil_append] at h1 h2
  rw [h1, h2]
  constructor
  · show ((splitLines cs1.flatten).1).length = k
    rw [splitLines_length_eq_countDelims cs1.flatten, hk]
  · show (splitLines cs1.flatten).1 = (splitLines cs2.flatten).1
    rw [hjoin]

/-- C3 witness: one delimiter, two different chunkings of `"a\nb"`. -/
theorem c3_chunk_boundary_independent_witness :
    ([['a', '\n', 'b']] : List (List Char)).flatten =
        ([['a'], ['\n', 'b']] : List (List Char)).flatten ∧
    countDelims ([['a', '\n', 'b']] : List (List Char)).flatten = 1 ∧
    ((LineBuffer.writesFrom LineBuffer.defaultCfg LineBuffer.fresh
        [['a', '\n', 'b']]).emitted.length = 1 ∧
      (LineBuffer.writesFrom LineBuffer.defaultCfg LineBuffer.fresh
          [['a', '\n', 'b']]).emitted =
        (LineBuffer.writesFrom LineBuffer.defaultCfg LineBuffer.fresh
          [['a'], ['\n', 'b']]).emitted) :=
  ⟨by decide, by decide,
   c3_chunk_boundary_independent [['a', '\n', 'b']] [['a'], ['\n', 'b']] 1
     (by decide) (by decide)⟩

/-- C4: `resume` on a scanner whose pending buffer is non-empty and contains
no delimiter re-submits the buffer through `write`, which appends it to the
still-present buffer: afterwards the pending buffer is the original content
concatenated with itself. -/
theorem c4_resume_doubles_buffer (cfg : LineBuffer.Config) (s : LineBuffer)
    (hne : s.buffer ≠ []) (hnd : countDelims s.buffer = 0) :
    (LineBuffer.resume cfg s).buffer = s.buffer ++ s.buffer := by
  have hb : nl ∉ s.buffer := (countDelims_eq_zero_iff s.buffer).mp hnd
  have hbb : countDelims (s.buffer ++ s.buffer) = 0 := by
    rw [countDelims_eq_zero_iff]
    simp [hb]
  have hsplit := splitLines_of_countDelims_zero (s.buffer ++ s.buffer) hbb
  unfold LineBuffer.resume
  rw [LineBuffer.flushQ_buffer]
  rw [if_pos (show ({ s with paused := false } : LineBuffer).buffer ≠ [] from hne)]
  rw [LineBuffer.write_buffer_not_paused cfg { s with paused := false } _ rfl]
  show (splitLines (s.buffer ++ s.buffer)).2 = s.buffer ++ s.buffer
  rw [hsplit]

/-- C4 witness: resuming with pending `"x"` leaves pending `"xx"`. -/
theorem c4_resume_doubles_buffer_witness :
    (LineBuffer.resume LineBuffer.defaultCfg c4State).buffer =
      c4State.buffer ++ c4State.buffer :=
  c4_resume_doubles_buffer LineBuffer.defaultCfg c4State (by decide) (by decide)

/-- C5 counterexample: the numeric guard checks only `NaN` and positive
`Infinity`, so the token `"-Infinity"` parses to negative infinity and is
mapped to a numeric Scalar, contradicting the claim that infinite values
never reach the numeric branch. -/
theorem c5_counterexample :
    CSV.jsNumber ("-Infinity".toList) = CSV.JsNum.negInf ∧
    CSV.defaultMap CSV.defaultDateFormats ("-Infinity".toList) =
      CSV.Scalar.num CSV.JsNum.negInf := by
  decide

/-- C5 (amended): the numeric branch applies exactly when the token is
non-empty and parses as a number that is neither `NaN` nor positive
`Infinity`; tokens with trailing non-numeric characters (which parse to
`NaN`) and `"Infinity"` fall through, but `"-Infinity"` is mapped to a
numeric Scalar. -/
theorem c5_numeric_branch_amended (fmts : List (List Char → Option CSV.DateVal))
    (datum : List Char) :
    (∃ v, CSV.defaultMap fmts datum = CSV.Scalar.num v) ↔
      (datum ≠ [] ∧ CSV.jsNumber datum ≠ CSV.JsNum.nan ∧
        CSV.jsNumber datum ≠ CSV.JsNum.posInf) := by
  unfold CSV.defaultMap
  by_cases h0 : datum = []
  · simp [h0]
  · by_cases hg : CSV.jsNumber datum ≠ CSV.JsNum.nan ∧ CSV.jsNumber datum ≠ CSV.JsNum.posInf
    · simp [h0, hg]
    · simp only [h0, hg, if_false, ite_false]
      rcases htf : CSV.tryFormats fmts datum with _ | d
      · rcases hsv : CSV.specialValues datum with _ | v
        · simp [htf, hsv, hg]
        · simp only [htf, hsv]
          constructor
          · rintro ⟨w, hw⟩
            exact absurd hw (CSV.specialValues_not_num datum v hsv w)
          · intro hr
            exact hr.2.elim
      · simp [htf, hg]

/-- C6: the default ValueMapper sends each sample input to the specified
Scalar: empty string to null, `"42"` and `"3.14"` to the exact numbers,
`"2024-01-15"` to the date January 15 2024, `"true"` to the boolean,
`"#DIV/0!"` to the error sentinel, and `"hello"` / `"12abc"` unchanged to
strings. -/
theorem c6_default_map_table :
    CSV.defaultMap CSV.defaultDateFormats ("".toList) = CSV.Scalar.null ∧
    CSV.defaultMap CSV.defaultDateFormats ("42".toList) =
      CSV.Scalar.num (CSV.JsNum.val 42 1) ∧
    CSV.defaultMap CSV.defaultDateFormats ("3.14".toList) =
      CSV.Scalar.num (CSV.JsNum.val 157 50) ∧
    CSV.defaultMap CSV.defaultDateFormats ("2024-01-15".toList) =
      CSV.Scalar.date ⟨2024, 1, 15, 0, 0, 0⟩ ∧
    CSV.defaultMap CSV.defaultDateFormats ("true".toList) = CSV.Scalar.bool true ∧
    CSV.defaultMap CSV.defaultDateFormats ("#DIV/0!".toList) =
      CSV.Scalar.err ("#DIV/0!".toList) ∧
    CSV.defaultMap CSV.defaultDateFormats ("hello".toList) =
      CSV.Scalar.str ("hello".toList) ∧
    CSV.defaultMap CSV.defaultDateFormats ("12abc".toList) =
      CSV.Scalar.str ("12abc".toList) := by
  decide

/-- C7 counterexample: when the path exists but the underlying read fails,
`readFile` re-throws the rejection before reaching `stream.close()`, so the
stream handle is not released in the failure outcome. -/
theorem c7_counterexample :
    CSV.readFileModel (α := Nat) ("f.csv".toList) true (Except.error ("boom".toList)) =
      (Except.error ("boom".toList), false) := rfl

/-- C7 (amended): `readFile` fails with the not-found error when the path
does not exist, and otherwise delegates to `read`; the stream handle is
released only when the read succeeds — a failed read propagates its error and
skips the close call. -/
theorem c7_readfile_amended (α : Type) (filename : List Char) :
    (∀ res : Except (List Char) α, CSV.readFileModel filename false res =
      (Except.error ("File not found: ".toList ++ filename), false)) ∧
    (∀ t : α, CSV.readFileModel filename true (Except.ok t) = (Except.ok t, true)) ∧
    (∀ e : List Char, CSV.readFileModel (α := α) filename true (Except.error e) =
      ((Except.error e : Except (List Char) α), false)) :=
  ⟨fun _ => rfl, fun _ => rfl, fun _ => rfl⟩

set_option maxRecDepth 20000 in
/-- C8: streaming 2500 rows in batch mode delivers exactly three batches of
sizes 1000, 1000, 500 in that order; in general the sink never receives an
empty batch, and a non-empty partial batch remaining at end-of-stream is
flushed to the sink exactly once. -/
theorem c8_batch_sizes :
    ((CSV.batchLoop ([] : List Nat) (List.range 2500)).map List.length =
      [1000, 1000, 500]) ∧
    (∀ (rows pending : List Nat), [] ∉ CSV.batchLoop pending rows) ∧
    (∀ pending : List Nat, pending ≠ [] →
      CSV.batchLoop pending ([] : List Nat) = [pending]) := by
  refine ⟨?_, fun rows pending => CSV.batchLoop_no_empty rows pending, ?_⟩
  · rw [CSV.batchLoop_lengths (List.range 2500) ([] : List Nat), List.length_range]
    show CSV.lengthsAux 0 2500 = [1000, 1000, 500]
    decide
  · intro pending hne
    rcases pending with _ | ⟨a, as⟩
    · exact absurd rfl hne
    · rfl

/-- C8 witness: a final one-row partial batch is delivered exactly once at
end-of-stream. -/
theorem c8_batch_sizes_witness :
    CSV.batchLoop [0] ([] : List Nat) = [[0]] :=
  c8_batch_sizes.2.2 [0] (by decide)
